import Mathlib

/-!
A shallow embedding of the Synacor-challenge virtual machine from
src/main.go: value resolution (getValue), register writes (setRegister),
the LIFO stack (stack.Push / stack.Pop), and one iteration of the
fetch-decode-execute loop (step), together with theorems about the
properties the specification states.

Machine words are modelled as Nat; Go uint16 arithmetic is made explicit
with reduction modulo 65536 exactly where the Go operations can wrap
(addition, multiplication, the subtractions index-1 and register-32768,
and the bitwise complement, for which the complement of a uint16 value v
is 65535 - v).  Go panics — both the explicit ones (overflow, empty
stack, unknown opcode, failed stdin read) and the runtime faults of
unguarded operations (slice index out of range, integer divide by
zero) — are modelled as Except errors.
-/

set_option maxHeartbeats 1000000
set_option maxRecDepth 2048

namespace Synacor

/-- Go uint16 wraparound: reduce modulo 2^16. -/
def u16 (x : Nat) : Nat := x % 65536

/-- Fatal terminal conditions of the interpreter (src/main.go): the
explicit panics and the Go runtime faults its unguarded operations can
raise. -/
inductive GoError where
  | overflow
  | emptyStack
  | indexOutOfRange
  | divideByZero
  | endOfInput
  | unknownOpcode (op : Nat)
deriving DecidableEq

/-- Go slice read program[i]: the stored word, or the runtime
index-out-of-range panic (src/main.go uses unguarded slice indexing). -/
def readWord (program : List Nat) (i : Nat) : Except GoError Nat :=
  match program.get? i with
  | some v => .ok v
  | none => .error .indexOutOfRange

/-- Value resolution, from getValue in src/main.go lines 199-209: a raw
word below 32768 denotes itself, a word in [32768, 32775] denotes the
current content of register (word - 32768), and anything larger panics
with "overflow".  The register read registers[value-32768] is a Go slice
access; with the 8-slot register bank its index is always in range. -/
def getValue (registers : List Nat) (value : Nat) : Except GoError Nat :=
  if value < 32768 then .ok value
  else if value > 32775 then .error .overflow
  else
    match registers.get? (value - 32768) with
    | some x => .ok x
    | none => .error .indexOutOfRange

/-- Register write, from setRegister in src/main.go lines 211-213:
registers[register-32768] = getValue(registers, value).  The uint16
subtraction register - 32768 wraps, i.e. equals
(32768 + register) % 65536, and the slice store is bounds-checked
against the register bank length (8 in every real run). -/
def setRegister (registers : List Nat) (register value : Nat) :
    Except GoError (List Nat) :=
  (getValue registers value).bind fun v =>
    if (32768 + register) % 65536 < registers.length then
      .ok (registers.set ((32768 + register) % 65536) v)
    else .error .indexOutOfRange

namespace stack

/-- Push, from src/main.go lines 254-259.  The Go code appends to the
end of a slice, the end being the top of the stack; we keep the top at
the head of the list. -/
def Push (v : Nat) (s : List Nat) : List Nat := v :: s

/-- Pop, from src/main.go lines 261-273: removing the top element, or
an "empty stack" error. -/
def Pop (s : List Nat) : Except GoError (Nat × List Nat) :=
  match s with
  | [] => .error .emptyStack
  | v :: rest => .ok (v, rest)

end stack

/-- The machine state owned by the fetch-decode-execute loop in main:
registers (8 slots, zero at start), the stack, the program image
(memory), the instruction pointer index, the line-buffered input
(current buffer remainder plus remaining stdin lines), and the output
character codes emitted so far. -/
structure VM where
  registers : List Nat
  stack : List Nat
  program : List Nat
  index : Nat
  inputBuf : List Nat
  inputLines : List (List Nat)
  output : List Nat
deriving DecidableEq

/-- Outcome of the switch body: breaking out of the VM loop (break VM)
or falling through to the index++ at the end of the loop body. -/
inductive SwitchOut where
  | brk (s : VM)
  | fall (s : VM)
deriving DecidableEq

/-- Outcome of one successful loop iteration: continue looping with a
new state, or terminate (halt / ret on empty stack) with a final
state. -/
inductive Out where
  | cont (s : VM)
  | halt (s : VM)
deriving DecidableEq

/-- Raw operand fetch, from src/main.go lines 28-38: the k-th operand
(k in 1..3) is program[index+k] when the guard holds and 0 otherwise.
The source guards all three reads with the same test index+1 < length,
where length is uint16(len(program)); the slice access itself is
bounds-checked against the true length. -/
def rawOperand (s : VM) (k : Nat) : Except GoError Nat :=
  if u16 (s.index + 1) < u16 s.program.length then
    readWord s.program (u16 (s.index + k))
  else .ok 0

/-- Opcode 1, set (src/main.go lines 57-60): set register a to the value
of b, then index += 2. -/
def execSet (s : VM) (a b : Nat) : Except GoError SwitchOut :=
  (setRegister s.registers a b).bind fun r =>
    .ok (.fall { s with registers := r, index := u16 (s.index + 2) })

/-- Opcode 2, push (lines 61-64): push value(a), then index += 1. -/
def execPush (s : VM) (a : Nat) : Except GoError SwitchOut :=
  (getValue s.registers a).bind fun v =>
    .ok (.fall { s with stack := stack.Push v s.stack,
                        index := u16 (s.index + 1) })

/-- Opcode 3, pop (lines 65-74): pop into register a; an empty stack is
a panic. -/
def execPop (s : VM) (a : Nat) : Except GoError SwitchOut :=
  (stack.Pop s.stack).bind fun p =>
    (setRegister s.registers a p.1).bind fun r =>
      .ok (.fall { s with registers := r, stack := p.2,
                          index := u16 (s.index + 1) })

/-- Opcode 4, eq (lines 75-83): a := 1 if value(b) = value(c) else 0. -/
def execEq (s : VM) (a b c : Nat) : Except GoError SwitchOut :=
  (getValue s.registers b).bind fun vb =>
    (getValue s.registers c).bind fun vc =>
      (setRegister s.registers a (if vb = vc then 1 else 0)).bind fun r =>
        .ok (.fall { s with registers := r, index := u16 (s.index + 3) })

/-- Opcode 5, gt (lines 84-92): a := 1 if value(b) > value(c) else 0. -/
def execGt (s : VM) (a b c : Nat) : Except GoError SwitchOut :=
  (getValue s.registers b).bind fun vb =>
    (getValue s.registers c).bind fun vc =>
      (setRegister s.registers a (if vb > vc then 1 else 0)).bind fun r =>
        .ok (.fall { s with registers := r, index := u16 (s.index + 3) })

/-- Opcode 6, jmp (lines 93-95): index := value(a) - 1 with uint16
wraparound, i.e. (value(a) + 65535) % 65536, then index++ at loop
end. -/
def execJmp (s : VM) (a : Nat) : Except GoError SwitchOut :=
  (getValue s.registers a).bind fun va =>
    .ok (.fall { s with index := u16 (65535 + va) })

/-- Opcode 7, jt (lines 96-103): if value(a) is nonzero jump to
value(b), else index += 2. -/
def execJt (s : VM) (a b : Nat) : Except GoError SwitchOut :=
  (getValue s.registers a).bind fun va =>
    if va ≠ 0 then
      (getValue s.registers b).bind fun vb =>
        .ok (.fall { s with index := u16 (65535 + vb) })
    else .ok (.fall { s with index := u16 (s.index + 2) })

/-- Opcode 8, jf (lines 104-111): if value(a) is zero jump to value(b),
else index += 2. -/
def execJf (s : VM) (a b : Nat) : Except GoError SwitchOut :=
  (getValue s.registers a).bind fun va =>
    if va = 0 then
      (getValue s.registers b).bind fun vb =>
        .ok (.fall { s with index := u16 (65535 + vb) })
    else .ok (.fall { s with index := u16 (s.index + 2) })

/-- Opcode 9, add (lines 112-116): a := (value(b) + value(c)) % 32768,
the uint16 sum wrapping modulo 65536 first. -/
def execAdd (s : VM) (a b c : Nat) : Except GoError SwitchOut :=
  (getValue s.registers b).bind fun vb =>
    (getValue s.registers c).bind fun vc =>
      (setRegister s.registers a (u16 (vb + vc) % 32768)).bind fun r =>
        .ok (.fall { s with registers := r, index := u16 (s.index + 3) })

/-- Opcode 10, mult (lines 117-121): a := (value(b) * value(c)) % 32768,
the uint16 product wrapping modulo 65536 first. -/
def execMult (s : VM) (a b c : Nat) : Except GoError SwitchOut :=
  (getValue s.registers b).bind fun vb =>
    (getValue s.registers c).bind fun vc =>
      (setRegister s.registers a (u16 (vb * vc) % 32768)).bind fun r =>
        .ok (.fall { s with registers := r, index := u16 (s.index + 3) })

/-- Opcode 11, mod (lines 122-126): a := value(b) % value(c).  The Go
remainder is unguarded, so a zero divisor is a runtime divide-by-zero
fault. -/
def execMod (s : VM) (a b c : Nat) : Except GoError SwitchOut :=
  (getValue s.registers b).bind fun vb =>
    (getValue s.registers c).bind fun vc =>
      if vc = 0 then .error .divideByZero
      else
        (setRegister s.registers a (vb % vc)).bind fun r =>
          .ok (.fall { s with registers := r, index := u16 (s.index + 3) })

/-- Opcode 12, and (lines 127-131): a := (value(b) land value(c)) % 32768. -/
def execAnd (s : VM) (a b c : Nat) : Except GoError SwitchOut :=
  (getValue s.registers b).bind fun vb =>
    (getValue s.registers c).bind fun vc =>
      (setRegister s.registers a ((vb &&& vc) % 32768)).bind fun r =>
        .ok (.fall { s with registers := r, index := u16 (s.index + 3) })

/-- Opcode 13, or (lines 132-136): a := (value(b) lor value(c)) % 32768. -/
def execOr (s : VM) (a b c : Nat) : Except GoError SwitchOut :=
  (getValue s.registers b).bind fun vb =>
    (getValue s.registers c).bind fun vc =>
      (setRegister s.registers a ((vb ||| vc) % 32768)).bind fun r =>
        .ok (.fall { s with registers := r, index := u16 (s.index + 3) })

/-- Opcode 14, not (lines 137-140): a := (complement of value(b)) %
32768, where the Go bitwise complement of a uint16 value v is
65535 - v. -/
def execNot (s : VM) (a b : Nat) : Except GoError SwitchOut :=
  (getValue s.registers b).bind fun vb =>
    (setRegister s.registers a ((65535 - vb) % 32768)).bind fun r =>
      .ok (.fall { s with registers := r, index := u16 (s.index + 2) })

/-- Opcode 15, rmem (lines 141-145): a := value(program[value(b)]),
the memory read being a bounds-checked slice access. -/
def execRmem (s : VM) (a b : Nat) : Except GoError SwitchOut :=
  (getValue s.registers b).bind fun vb =>
    (readWord s.program vb).bind fun w =>
      (getValue s.registers w).bind fun v =>
        (setRegister s.registers a v).bind fun r =>
          .ok (.fall { s with registers := r, index := u16 (s.index + 2) })

/-- Opcode 16, wmem (lines 146-150): program[value(a)] := value(b),
the store being a bounds-checked slice access. -/
def execWmem (s : VM) (a b : Nat) : Except GoError SwitchOut :=
  (getValue s.registers a).bind fun va =>
    (getValue s.registers b).bind fun vb =>
      if va < s.program.length then
        .ok (.fall { s with program := s.program.set va vb,
                            index := u16 (s.index + 2) })
      else .error .indexOutOfRange

/-- Opcode 17, call (lines 151-154): push index + 2 (the address after
this two-word instruction), then index := value(a) - 1 with uint16
wraparound; the loop-end index++ lands on value(a). -/
def execCall (s : VM) (a : Nat) : Except GoError SwitchOut :=
  let st := stack.Push (u16 (s.index + 2)) s.stack
  (getValue s.registers a).bind fun va =>
    .ok (.fall { s with stack := st, index := u16 (65535 + va) })

/-- Opcode 18, ret (lines 155-163): pop and jump to the resolved popped
value; an empty stack breaks out of the VM loop (clean stop). -/
def execRet (s : VM) : Except GoError SwitchOut :=
  match stack.Pop s.stack with
  | .error _ => .ok (.brk s)
  | .ok p =>
    (getValue s.registers p.1).bind fun rv =>
      .ok (.fall { s with stack := p.2, index := u16 (65535 + rv) })

/-- Opcode 19, out (lines 164-167): emit character code value(a). -/
def execOut (s : VM) (a : Nat) : Except GoError SwitchOut :=
  (getValue s.registers a).bind fun va =>
    .ok (.fall { s with output := s.output ++ [va],
                        index := u16 (s.index + 1) })

/-- Line-buffer refill (src/main.go lines 169-180): only when the buffer
is empty is a fresh line pulled from stdin; a failed read is a panic
(end of input). -/
def refill (buf : List Nat) (lines : List (List Nat)) :
    Except GoError (List Nat × List (List Nat)) :=
  match buf with
  | [] =>
    match lines with
    | [] => .error .endOfInput
    | l :: ls => .ok (l, ls)
  | _ => .ok (buf, lines)

/-- Opcode 20, in (lines 168-188): refill the line buffer if empty, take
the first buffered character (input[:1][0], a panic on an empty
string), drop it from the buffer, and store
getValue(registers, character) into register a — the character code is
resolved once explicitly and once more inside setRegister. -/
def execIn (s : VM) (a : Nat) : Except GoError SwitchOut :=
  (refill s.inputBuf s.inputLines).bind fun p =>
    match p.1 with
    | [] => .error .indexOutOfRange
    | ch :: rest =>
      (getValue s.registers ch).bind fun v =>
        (setRegister s.registers a v).bind fun r =>
          .ok (.fall { s with registers := r, inputBuf := rest,
                              inputLines := p.2,
                              index := u16 (s.index + 1) })

/-- The switch on program[index] (src/main.go lines 54-193).  Opcode 0
breaks out of the loop, opcode 21 does nothing, and an unknown opcode
panics. -/
def execSwitch (s : VM) (op a b c : Nat) : Except GoError SwitchOut :=
  match op with
  | 0 => .ok (.brk s)
  | 1 => execSet s a b
  | 2 => execPush s a
  | 3 => execPop s a
  | 4 => execEq s a b c
  | 5 => execGt s a b c
  | 6 => execJmp s a
  | 7 => execJt s a b
  | 8 => execJf s a b
  | 9 => execAdd s a b c
  | 10 => execMult s a b c
  | 11 => execMod s a b c
  | 12 => execAnd s a b c
  | 13 => execOr s a b c
  | 14 => execNot s a b
  | 15 => execRmem s a b
  | 16 => execWmem s a b
  | 17 => execCall s a
  | 18 => execRet s
  | 19 => execOut s a
  | 20 => execIn s a
  | 21 => .ok (.fall s)
  | _ => .error (.unknownOpcode op)

/-- One iteration of the VM loop (src/main.go lines 22-196): fetch the
three raw operands, fetch the opcode at index, run the switch, and —
when the switch falls through — apply the loop-end index++ with uint16
wraparound. -/
def step (s : VM) : Except GoError Out :=
  (rawOperand s 1).bind fun a =>
    (rawOperand s 2).bind fun b =>
      (rawOperand s 3).bind fun c =>
        (readWord s.program (u16 s.index)).bind fun op =>
          (execSwitch s op a b c).bind fun o =>
            match o with
            | .brk t => .ok (.halt t)
            | .fall t => .ok (.cont { t with index := u16 (t.index + 1) })

/-- The machine state carried by a switch outcome. -/
def outVM : SwitchOut → VM
  | .brk t => t
  | .fall t => t

/-- The machine state carried by a step outcome. -/
def vmOf : Out → VM
  | .cont t => t
  | .halt t => t

/-- All register cells hold values in the literal range [0, 32767]. -/
def RegsOk (l : List Nat) : Prop := ∀ x ∈ l, x < 32768

/-- Inversion of a successful Except bind. -/
theorem bind_ok {α β : Type} {x : Except GoError α} {f : α → Except GoError β}
    {r : β} (h : x.bind f = .ok r) : ∃ v, x = .ok v ∧ f v = .ok r := by
  cases x with
  | error e => exact absurd h (by simp [Except.bind])
  | ok v => exact ⟨v, rfl, h⟩

/-- Membership after List.set comes from the old list or is the new value. -/
theorem mem_set_cases {l : List Nat} {n v x : Nat} (h : x ∈ l.set n v) :
    x ∈ l ∨ x = v := by
  induction l generalizing n with
  | nil => simp [List.set] at h
  | cons y ys ih =>
    cases n with
    | zero =>
      rcases List.mem_cons.mp h with h | h
      · exact Or.inr h
      · exact Or.inl (List.mem_cons_of_mem _ h)
    | succ m =>
      rcases List.mem_cons.mp h with h | h
      · exact Or.inl (h ▸ List.mem_cons_self _ _)
      · rcases ih h with h | h
        · exact Or.inl (List.mem_cons_of_mem _ h)
        · exact Or.inr h

/-- Reading a cell after List.set gives the old cell or the new value. -/
theorem get?_set_cases {l : List Nat} {n v i w : Nat}
    (h : (l.set n v).get? i = some w) : l.get? i = some w ∨ w = v := by
  induction l generalizing n i with
  | nil => simp [List.set] at h
  | cons y ys ih =>
    cases n with
    | zero =>
      cases i with
      | zero => simp_all
      | succ j => exact Or.inl h
    | succ m =>
      cases i with
      | zero => exact Or.inl h
      | succ j => exact ih h

/-- Resolution only ever returns a literal or the content of a register:
under the register invariant every resolved value is below 32768. -/
theorem getValue_lt {regs : List Nat} {v w : Nat}
    (h : getValue regs v = .ok w) (hr : RegsOk regs) : w < 32768 := by
  unfold getValue at h
  split at h
  · next hlt => exact Except.ok.inj h ▸ hlt
  · split at h
    · exact absurd h (by simp)
    · cases hx : regs.get? (v - 32768) with
      | none => rw [hx] at h; exact absurd h (by simp)
      | some x => rw [hx] at h; exact Except.ok.inj h ▸ hr x (List.get?_mem hx)

/-- Inversion of a successful setRegister: its argument resolved, the
wrapped destination index was in range, and the bank was updated
there with the resolved value. -/
theorem setRegister_inv {regs : List Nat} {r v : Nat} {regs' : List Nat}
    (h : setRegister regs r v = .ok regs') :
    ∃ w, getValue regs v = .ok w ∧ (32768 + r) % 65536 < regs.length ∧
      regs' = regs.set ((32768 + r) % 65536) w := by
  unfold setRegister at h
  obtain ⟨w, hw, h⟩ := bind_ok h
  split at h
  · exact ⟨w, hw, by assumption, (Except.ok.inj h).symm⟩
  · exact absurd h (by simp)

/-- A successful register write preserves the register invariant. -/
theorem setRegister_RegsOk {regs : List Nat} {r v : Nat} {regs' : List Nat}
    (h : setRegister regs r v = .ok regs') (hr : RegsOk regs) : RegsOk regs' := by
  obtain ⟨w, hw, _, rfl⟩ := setRegister_inv h
  intro x hx
  rcases mem_set_cases hx with hx | rfl
  · exact hr x hx
  · exact getValue_lt hw hr

/-- Inversion of a successful step into its fetches, the switch
outcome, and the loop-end increment. -/
theorem step_inv {s : VM} {o : Out} (h : step s = .ok o) :
    ∃ a b c op o', rawOperand s 1 = .ok a ∧ rawOperand s 2 = .ok b ∧
      rawOperand s 3 = .ok c ∧ readWord s.program (u16 s.index) = .ok op ∧
      execSwitch s op a b c = .ok o' ∧
      o = (match o' with
           | .brk t => .halt t
           | .fall t => .cont { t with index := u16 (t.index + 1) }) := by
  unfold step at h
  obtain ⟨a, ha, h⟩ := bind_ok h
  obtain ⟨b, hb, h⟩ := bind_ok h
  obtain ⟨c, hc, h⟩ := bind_ok h
  obtain ⟨op, hop, h⟩ := bind_ok h
  obtain ⟨o', ho, h⟩ := bind_ok h
  refine ⟨a, b, c, op, o', ha, hb, hc, hop, ho, ?_⟩
  cases o' with
  | brk t => exact (Except.ok.inj h).symm
  | fall t => exact (Except.ok.inj h).symm

/-- Inversion of a step that continues: the switch fell through and the
loop-end increment was applied. -/
theorem step_cont_inv {s s' : VM} (h : step s = .ok (.cont s')) :
    ∃ a b c op t, rawOperand s 1 = .ok a ∧ rawOperand s 2 = .ok b ∧
      rawOperand s 3 = .ok c ∧ readWord s.program (u16 s.index) = .ok op ∧
      execSwitch s op a b c = .ok (.fall t) ∧
      s' = { t with index := u16 (t.index + 1) } := by
  obtain ⟨a, b, c, op, o', ha, hb, hc, hop, ho, hm⟩ := step_inv h
  cases o' with
  | brk t => exact absurd hm (by simp)
  | fall t => exact ⟨a, b, c, op, t, ha, hb, hc, hop, ho, Out.cont.inj hm⟩

/-- C9: for every word x and every stack state, Push x immediately
followed by Pop returns x together with the stack as it was before the
Push: the LIFO round trip of src/main.go lines 254-273. -/
theorem push_pop_roundtrip (x : Nat) (s : List Nat) :
    stack.Pop (stack.Push x s) = .ok (x, s) := rfl

/-- Initial state for the two-word program [19, 65] of the boundary
scenario of the specification. -/
def vmOutAt : VM := ⟨List.replicate 8 0, [], [19, 65], 0, [], [], []⟩

/-- C3: refuted by the code as written — on the two-word program
[19, 65] at IP 0 the very first iteration faults with a Go
index-out-of-range panic while reading operand b at program[2], because
all three operand reads (src/main.go lines 28-38) are guarded by the
same test index+1 < length instead of index+k < length; reading past
the end is a crash here, not the zero padding the claim states.  Only
operand a is correctly guarded. -/
theorem operand_fetch_crash : step vmOutAt = .error .indexOutOfRange := rfl

/-- C1: value resolution returns a word below 32768 unchanged, returns
the content of register (v - 32768) for v in [32768, 32775], and fails
with the Overflow error for every raw value from 32776 up to 65535 —
getValue of src/main.go lines 199-209 on an 8-slot register bank. -/
theorem getValue_resolution (regs : List Nat) (v : Nat)
    (hlen : regs.length = 8) :
    (v < 32768 → getValue regs v = .ok v) ∧
    (32768 ≤ v → v ≤ 32775 → getValue regs v = .ok (regs.getD (v - 32768) 0)) ∧
    (32776 ≤ v → v ≤ 65535 → getValue regs v = .error .overflow) := by
  refine ⟨fun h1 => by simp [getValue, h1], fun h2 h3 => ?_, fun h4 h5 => ?_⟩
  · cases hx : regs.get? (v - 32768) with
    | none =>
      rw [List.get?_eq_none] at hx
      omega
    | some x =>
      have hgd : regs.getD (v - 32768) 0 = x := by
        simp [List.getD_eq_getElem?_getD, ← List.get?_eq_getElem?, hx]
      rw [getValue, if_neg (by omega), if_neg (by omega), hx, hgd]
  · rw [getValue, if_neg (by omega), if_pos (by omega)]

/-- Witness for C1 at the concrete bank [5, 6, 0, 0, 0, 0, 0, 0] and the
raw word 32769, which resolves to the content 6 of register 1. -/
theorem getValue_resolution_witness :
    ([5, 6, 0, 0, 0, 0, 0, 0] : List Nat).length = 8 ∧
    ((32769 < 32768 →
        getValue [5, 6, 0, 0, 0, 0, 0, 0] 32769 = .ok 32769) ∧
     (32768 ≤ 32769 → 32769 ≤ 32775 →
        getValue [5, 6, 0, 0, 0, 0, 0, 0] 32769 =
          .ok (([5, 6, 0, 0, 0, 0, 0, 0] : List Nat).getD (32769 - 32768) 0)) ∧
     (32776 ≤ 32769 → 32769 ≤ 65535 →
        getValue [5, 6, 0, 0, 0, 0, 0, 0] 32769 = .error .overflow)) :=
  ⟨rfl, getValue_resolution [5, 6, 0, 0, 0, 0, 0, 0] 32769 rfl⟩

/-- C5: the two empty-stack conditions never share handling — executing
pop (opcode 3) with an empty stack is the fatal, unrecoverable empty
stack panic of src/main.go lines 65-74, while executing ret (opcode 18)
with an empty stack breaks out of the VM loop as a non-error clean
termination (lines 155-163); the two outcomes are distinct terminal
states. -/
theorem empty_stack_pop_vs_ret {s₁ s₂ : VM} {a₁ b₁ c₁ a₂ b₂ c₂ : Nat}
    (h₁s : s₁.stack = []) (h₂s : s₂.stack = [])
    (ha₁ : rawOperand s₁ 1 = .ok a₁) (hb₁ : rawOperand s₁ 2 = .ok b₁)
    (hc₁ : rawOperand s₁ 3 = .ok c₁)
    (hop₁ : readWord s₁.program (u16 s₁.index) = .ok 3)
    (ha₂ : rawOperand s₂ 1 = .ok a₂) (hb₂ : rawOperand s₂ 2 = .ok b₂)
    (hc₂ : rawOperand s₂ 3 = .ok c₂)
    (hop₂ : readWord s₂.program (u16 s₂.index) = .ok 18) :
    step s₁ = .error .emptyStack ∧ step s₂ = .ok (.halt s₂) ∧
    step s₁ ≠ step s₂ := by
  have e₁ : step s₁ = .error .emptyStack := by
    unfold step
    rw [ha₁, hb₁, hc₁, hop₁]
    simp only [Except.bind, execSwitch]
    norm_num [execPop, h₁s, stack.Pop, Except.bind]
  have e₂ : step s₂ = .ok (.halt s₂) := by
    unfold step
    rw [ha₂, hb₂, hc₂, hop₂]
    simp only [Except.bind, execSwitch]
    norm_num [execRet, h₂s, stack.Pop, Except.bind]
  exact ⟨e₁, e₂, by rw [e₁, e₂]; simp⟩

/-- Initial state for the one-word program [3]: pop on an empty stack. -/
def vmPopE : VM := ⟨List.replicate 8 0, [], [3], 0, [], [], []⟩

/-- Initial state for the one-word program [18]: ret on an empty stack. -/
def vmRetE : VM := ⟨List.replicate 8 0, [], [18], 0, [], [], []⟩

/-- Witness for C5: on the one-word programs [3] and [18] with empty
stacks, pop panics with the empty stack error while ret stops cleanly,
and the two outcomes differ. -/
theorem empty_stack_pop_vs_ret_witness :
    step vmPopE = .error .emptyStack ∧ step vmRetE = .ok (.halt vmRetE) ∧
    step vmPopE ≠ step vmRetE :=
  @empty_stack_pop_vs_ret vmPopE vmRetE 0 0 0 0 0 0
    rfl rfl rfl rfl rfl rfl rfl rfl rfl rfl

/-- C6: executing not (opcode 14, src/main.go lines 137-140) on a
resolved operand value v in [0, 32767] stores 32767 - v into the
destination register: the full-width uint16 complement 65535 - v
followed by reduction modulo 32768 is exactly the 15-bit bitwise
complement. -/
theorem not_stores_arithmetic_complement {s s' : VM} {a b v : Nat}
    (hop : readWord s.program (u16 s.index) = .ok 14)
    (ha : rawOperand s 1 = .ok a) (hb : rawOperand s 2 = .ok b)
    (hv : getValue s.registers b = .ok v) (hvle : v ≤ 32767)
    (hstep : step s = .ok (.cont s')) :
    s'.registers = s.registers.set ((32768 + a) % 65536) (32767 - v) := by
  obtain ⟨a', b', c', op, t, ha', hb', hc', hop', hsw, rfl⟩ := step_cont_inv hstep
  obtain rfl : op = 14 := Except.ok.inj (hop'.symm.trans hop)
  obtain rfl : a = a' := Except.ok.inj (ha.symm.trans ha')
  obtain rfl : b = b' := Except.ok.inj (hb.symm.trans hb')
  simp only [execSwitch] at hsw
  norm_num [execNot] at hsw
  obtain ⟨vb, hvb, hsw⟩ := bind_ok hsw
  obtain ⟨r, hr, hsw⟩ := bind_ok hsw
  obtain ⟨w, hw, hlt, rfl⟩ := setRegister_inv hr
  have hwv : w = (65535 - vb) % 32768 := by
    unfold getValue at hw
    rw [if_pos (by omega)] at hw
    exact (Except.ok.inj hw).symm
  have hvbv : vb = v := Except.ok.inj (hvb.symm.trans hv)
  have ht := SwitchOut.fall.inj (Except.ok.inj hsw)
  have hreg : ({ t with index := u16 (t.index + 1) } : VM).registers =
      t.registers := rfl
  rw [hreg, ← ht]
  show s.registers.set ((32768 + a) % 65536) w =
    s.registers.set ((32768 + a) % 65536) (32767 - v)
  have hw' : w = 32767 - v := by rw [hwv, hvbv]; omega
  rw [hw']

/-- Initial state for the program [14, 32768, 21845, 0]: not into
register 0 of the literal 21845. -/
def vmNotP : VM := ⟨List.replicate 8 0, [], [14, 32768, 21845, 0], 0, [], [], []⟩

/-- The state after one step of vmNotP. -/
def vmNotP' : VM :=
  ⟨[10922, 0, 0, 0, 0, 0, 0, 0], [], [14, 32768, 21845, 0], 3, [], [], []⟩

/-- Witness for C6 at v = 21845: register 0 receives 10922 = 32767 - 21845. -/
theorem not_stores_arithmetic_complement_witness :
    vmNotP'.registers = vmNotP.registers.set ((32768 + 32768) % 65536)
      (32767 - 21845) :=
  @not_stores_arithmetic_complement vmNotP vmNotP' 32768 21845 21845
    rfl rfl rfl rfl (by decide) rfl

/-- C10: the mod opcode (11, src/main.go lines 122-126) divides without
any precondition check, so whenever the resolved divisor value(c) is 0
the step ends in the fatal Go runtime divide-by-zero fault rather than
any defined result or reported VM error. -/
theorem mod_unguarded_divide_by_zero {s : VM} {a b c vb : Nat}
    (hop : readWord s.program (u16 s.index) = .ok 11)
    (ha : rawOperand s 1 = .ok a) (hb : rawOperand s 2 = .ok b)
    (hc : rawOperand s 3 = .ok c)
    (hvb : getValue s.registers b = .ok vb)
    (hvc : getValue s.registers c = .ok 0) :
    step s = .error .divideByZero := by
  unfold step
  rw [ha, hb, hc, hop]
  simp only [Except.bind, execSwitch]
  norm_num [execMod, hvb, hvc, Except.bind]

/-- Initial state for the program [11, 32768, 5, 0]: mod with literal
divisor 0. -/
def vmModZ : VM := ⟨List.replicate 8 0, [], [11, 32768, 5, 0], 0, [], [], []⟩

/-- Witness for C10: the concrete program [11, 32768, 5, 0] faults with
divide-by-zero. -/
theorem mod_unguarded_divide_by_zero_witness :
    step vmModZ = .error .divideByZero :=
  @mod_unguarded_divide_by_zero vmModZ 32768 5 0 5 rfl rfl rfl rfl rfl rfl

/-- C7: call (opcode 17) at instruction-pointer position p pushes p + 2,
the address of the instruction after the two-word call, and transfers
control to the resolved operand; a ret executed next with no
intervening stack mutation pops that address, restores the stack to its
state before the call, and sets the instruction pointer back to p + 2
(src/main.go lines 151-163). -/
theorem call_ret_roundtrip {s s₁ s₂ : VM}
    (hop : readWord s.program (u16 s.index) = .ok 17)
    (hlt : s.index + 2 < 32768)
    (h₁ : step s = .ok (.cont s₁))
    (hop₂ : readWord s₁.program (u16 s₁.index) = .ok 18)
    (h₂ : step s₁ = .ok (.cont s₂)) :
    s₁.stack = (s.index + 2) :: s.stack ∧
    (∃ a va, rawOperand s 1 = .ok a ∧ getValue s.registers a = .ok va ∧
      s₁.index = u16 va) ∧
    s₂.index = s.index + 2 ∧ s₂.stack = s.stack := by
  obtain ⟨a, b, c, op, t, ha, hb, hc, hop', hsw, hs₁⟩ := step_cont_inv h₁
  obtain rfl : op = 17 := Except.ok.inj (hop'.symm.trans hop)
  simp only [execSwitch] at hsw
  norm_num [execCall] at hsw
  obtain ⟨va, hva, hsw⟩ := bind_ok hsw
  have ht := SwitchOut.fall.inj (Except.ok.inj hsw)
  have hstack₁ : s₁.stack = (s.index + 2) :: s.stack := by
    rw [hs₁]
    show t.stack = (s.index + 2) :: s.stack
    rw [← ht]
    show stack.Push (u16 (s.index + 2)) s.stack = (s.index + 2) :: s.stack
    unfold stack.Push u16
    congr 1
    omega
  have hidx₁ : s₁.index = u16 va := by
    rw [hs₁]
    show u16 (t.index + 1) = u16 va
    rw [← ht]
    show u16 (u16 (65535 + va) + 1) = u16 va
    unfold u16
    omega
  obtain ⟨a₂, b₂, c₂, op₂, t₂, ha₂, hb₂, hc₂, hop₂', hsw₂, hs₂⟩ :=
    step_cont_inv h₂
  obtain rfl : op₂ = 18 := Except.ok.inj (hop₂'.symm.trans hop₂)
  simp only [execSwitch] at hsw₂
  norm_num [execRet, hstack₁, stack.Pop] at hsw₂
  obtain ⟨rv, hrv, hsw₂⟩ := bind_ok hsw₂
  have hrv' : rv = s.index + 2 := by
    unfold getValue at hrv
    rw [if_pos (by omega)] at hrv
    exact (Except.ok.inj hrv).symm
  have ht₂ := SwitchOut.fall.inj (Except.ok.inj hsw₂)
  refine ⟨hstack₁, ⟨a, va, ha, hva, hidx₁⟩, ?_, ?_⟩
  · rw [hs₂]
    show u16 (t₂.index + 1) = s.index + 2
    rw [← ht₂]
    show u16 (u16 (65535 + rv) + 1) = s.index + 2
    unfold u16
    omega
  · rw [hs₂]
    show t₂.stack = s.stack
    rw [← ht₂]

/-- Initial state for the program [17, 3, 0, 18]: call the address 3,
where a ret follows at once. -/
def vmCall : VM := ⟨List.replicate 8 0, [], [17, 3, 0, 18], 0, [], [], []⟩

/-- The state after the call of vmCall. -/
def vmCall₁ : VM := ⟨List.replicate 8 0, [2], [17, 3, 0, 18], 3, [], [], []⟩

/-- The state after the ret of vmCall₁. -/
def vmCall₂ : VM := ⟨List.replicate 8 0, [], [17, 3, 0, 18], 2, [], [], []⟩

/-- Witness for C7 on the program [17, 3, 0, 18]: the call from IP 0
pushes 2 and jumps to 3, and the ret brings the IP back to 2 with the
stack restored to empty. -/
theorem call_ret_roundtrip_witness :
    vmCall₁.stack = (vmCall.index + 2) :: vmCall.stack ∧
    (∃ a va, rawOperand vmCall 1 = .ok a ∧
      getValue vmCall.registers a = .ok va ∧ vmCall₁.index = u16 va) ∧
    vmCall₂.index = vmCall.index + 2 ∧ vmCall₂.stack = vmCall.stack :=
  @call_ret_roundtrip vmCall vmCall₁ vmCall₂
    rfl (by decide) rfl rfl rfl

/-- Effect of a successful in opcode when the (possibly refilled) line
buffer starts with character ch: exactly that character is consumed and
it is stored — after one more resolution — into register a. -/
theorem execIn_effect {s : VM} {a ch : Nat} {rest : List Nat}
    {lines' : List (List Nat)} {o : SwitchOut}
    (hre : refill s.inputBuf s.inputLines = .ok (ch :: rest, lines'))
    (hch : ch < 32768)
    (h : execIn s a = .ok o) :
    ∃ r, setRegister s.registers a ch = .ok r ∧
      o = .fall { s with registers := r, inputBuf := rest,
                         inputLines := lines', index := u16 (s.index + 1) } := by
  unfold execIn at h
  rw [hre] at h
  simp only [Except.bind] at h
  rw [show getValue s.registers ch = .ok ch from by
    unfold getValue; rw [if_pos hch]] at h
  simp only [Except.bind] at h
  obtain ⟨r, hr, h⟩ := bind_ok h
  exact ⟨r, hr, (Except.ok.inj h).symm⟩

/-- C8: the in opcode (20, src/main.go lines 168-188) consumes exactly
one character: with a nonempty line buffer it takes the first buffered
character without touching the remaining stdin lines, and with an empty
buffer it first pulls exactly one full line; the consumed character
code is removed from the buffer and, being below 32768, passes through
the extra value resolution unchanged, so the destination register
receives the character code itself. -/
theorem in_reads_one_buffered_char {s₁ s₁' s₂ s₂' : VM} {a₁ a₂ ch₁ ch₂ : Nat}
    {tl₁ : List Nat} {l₂ : List Nat} {ls₂ : List (List Nat)}
    (hop₁ : readWord s₁.program (u16 s₁.index) = .ok 20)
    (ha₁ : rawOperand s₁ 1 = .ok a₁)
    (hbuf₁ : s₁.inputBuf = ch₁ :: tl₁) (hch₁ : ch₁ < 32768)
    (h₁ : step s₁ = .ok (.cont s₁'))
    (hop₂ : readWord s₂.program (u16 s₂.index) = .ok 20)
    (ha₂ : rawOperand s₂ 1 = .ok a₂)
    (hbuf₂ : s₂.inputBuf = []) (hlines₂ : s₂.inputLines = (ch₂ :: l₂) :: ls₂)
    (hch₂ : ch₂ < 32768)
    (h₂ : step s₂ = .ok (.cont s₂')) :
    (s₁'.registers = s₁.registers.set ((32768 + a₁) % 65536) ch₁ ∧
     s₁'.inputBuf = tl₁ ∧ s₁'.inputLines = s₁.inputLines) ∧
    (s₂'.registers = s₂.registers.set ((32768 + a₂) % 65536) ch₂ ∧
     s₂'.inputBuf = l₂ ∧ s₂'.inputLines = ls₂) := by
  have part : ∀ (s s' : VM) (a ch : Nat) (rest : List Nat)
      (lines' : List (List Nat)),
      readWord s.program (u16 s.index) = .ok 20 →
      rawOperand s 1 = .ok a →
      refill s.inputBuf s.inputLines = .ok (ch :: rest, lines') →
      ch < 32768 →
      step s = .ok (.cont s') →
      s'.registers = s.registers.set ((32768 + a) % 65536) ch ∧
        s'.inputBuf = rest ∧ s'.inputLines = lines' := by
    intro s s' a ch rest lines' hop ha hre hch hstep
    obtain ⟨a', b', c', op, t, ha', hb', hc', hop', hsw, hs'⟩ :=
      step_cont_inv hstep
    obtain rfl : op = 20 := Except.ok.inj (hop'.symm.trans hop)
    obtain rfl : a = a' := Except.ok.inj (ha.symm.trans ha')
    simp only [execSwitch] at hsw
    obtain ⟨r, hr, ho⟩ := execIn_effect hre hch hsw
    have ht := SwitchOut.fall.inj ho
    obtain ⟨w, hw, hwlt, rfl⟩ := setRegister_inv hr
    have hwch : w = ch := by
      unfold getValue at hw
      rw [if_pos hch] at hw
      exact (Except.ok.inj hw).symm
    subst hwch
    refine ⟨?_, ?_, ?_⟩
    · rw [hs']
      show t.registers = _
      rw [ht]
    · rw [hs']
      show t.inputBuf = rest
      rw [ht]
    · rw [hs']
      show t.inputLines = lines'
      rw [ht]
  refine ⟨?_, ?_⟩
  · exact part s₁ s₁' a₁ ch₁ tl₁ s₁.inputLines hop₁ ha₁
      (by rw [hbuf₁]; rfl) hch₁ h₁
  · exact part s₂ s₂' a₂ ch₂ l₂ ls₂ hop₂ ha₂
      (by rw [hbuf₂, hlines₂]; rfl) hch₂ h₂

/-- Initial state with a nonempty line buffer holding codes 104, 105. -/
def vmInBuf : VM :=
  ⟨List.replicate 8 0, [], [20, 32768, 0, 0], 0, [104, 105], [], []⟩

/-- The state after one in step of vmInBuf. -/
def vmInBuf' : VM :=
  ⟨[104, 0, 0, 0, 0, 0, 0, 0], [], [20, 32768, 0, 0], 2, [105], [], []⟩

/-- Initial state with an empty buffer and a pending stdin line. -/
def vmInRefill : VM :=
  ⟨List.replicate 8 0, [], [20, 32768, 0, 0], 0, [],
    [[104, 105, 10], [106, 10]], []⟩

/-- The state after one in step of vmInRefill. -/
def vmInRefill' : VM :=
  ⟨[104, 0, 0, 0, 0, 0, 0, 0], [], [20, 32768, 0, 0], 2, [105, 10],
    [[106, 10]], []⟩

/-- Witness for C8: with buffer "hi" the first in stores 104 into
register 0 and leaves 105 buffered; with an empty buffer the line
"hi\n" is pulled, 104 is stored, and "i\n" stays buffered. -/
theorem in_reads_one_buffered_char_witness :
    (vmInBuf'.registers =
        vmInBuf.registers.set ((32768 + 32768) % 65536) 104 ∧
     vmInBuf'.inputBuf = [105] ∧ vmInBuf'.inputLines = vmInBuf.inputLines) ∧
    (vmInRefill'.registers =
        vmInRefill.registers.set ((32768 + 32768) % 65536) 104 ∧
     vmInRefill'.inputBuf = [105, 10] ∧
     vmInRefill'.inputLines = [[106, 10]]) :=
  @in_reads_one_buffered_char vmInBuf vmInBuf' vmInRefill vmInRefill'
    32768 32768 104 104 [105] [105, 10] [[106, 10]]
    rfl rfl rfl (by decide) rfl rfl rfl rfl rfl (by decide) rfl

/-- Inversion of a successful set. -/
theorem execSet_inv {s : VM} {a b : Nat} {o : SwitchOut}
    (h : execSet s a b = .ok o) :
    ∃ r, setRegister s.registers a b = .ok r ∧
      o = .fall { s with registers := r, index := u16 (s.index + 2) } := by
  unfold execSet at h
  obtain ⟨r, hr, h⟩ := bind_ok h
  exact ⟨r, hr, (Except.ok.inj h).symm⟩

/-- Inversion of a successful push. -/
theorem execPush_inv {s : VM} {a : Nat} {o : SwitchOut}
    (h : execPush s a = .ok o) :
    ∃ v, getValue s.registers a = .ok v ∧
      o = .fall { s with stack := stack.Push v s.stack,
                         index := u16 (s.index + 1) } := by
  unfold execPush at h
  obtain ⟨v, hv, h⟩ := bind_ok h
  exact ⟨v, hv, (Except.ok.inj h).symm⟩

/-- Inversion of a successful pop. -/
theorem execPop_inv {s : VM} {a : Nat} {o : SwitchOut}
    (h : execPop s a = .ok o) :
    ∃ v rest r, stack.Pop s.stack = .ok (v, rest) ∧
      setRegister s.registers a v = .ok r ∧
      o = .fall { s with registers := r, stack := rest,
                         index := u16 (s.index + 1) } := by
  unfold execPop at h
  obtain ⟨p, hp, h⟩ := bind_ok h
  obtain ⟨v, rest⟩ := p
  obtain ⟨r, hr, h⟩ := bind_ok h
  exact ⟨v, rest, r, hp, hr, (Except.ok.inj h).symm⟩

/-- Inversion of a successful eq. -/
theorem execEq_inv {s : VM} {a b c : Nat} {o : SwitchOut}
    (h : execEq s a b c = .ok o) :
    ∃ vb vc r, getValue s.registers b = .ok vb ∧
      getValue s.registers c = .ok vc ∧
      setRegister s.registers a (if vb = vc then 1 else 0) = .ok r ∧
      o = .fall { s with registers := r, index := u16 (s.index + 3) } := by
  unfold execEq at h
  obtain ⟨vb, hvb, h⟩ := bind_ok h
  obtain ⟨vc, hvc, h⟩ := bind_ok h
  obtain ⟨r, hr, h⟩ := bind_ok h
  exact ⟨vb, vc, r, hvb, hvc, hr, (Except.ok.inj h).symm⟩

/-- Inversion of a successful gt. -/
theorem execGt_inv {s : VM} {a b c : Nat} {o : SwitchOut}
    (h : execGt s a b c = .ok o) :
    ∃ vb vc r, getValue s.registers b = .ok vb ∧
      getValue s.registers c = .ok vc ∧
      setRegister s.registers a (if vb > vc then 1 else 0) = .ok r ∧
      o = .fall { s with registers := r, index := u16 (s.index + 3) } := by
  unfold execGt at h
  obtain ⟨vb, hvb, h⟩ := bind_ok h
  obtain ⟨vc, hvc, h⟩ := bind_ok h
  obtain ⟨r, hr, h⟩ := bind_ok h
  exact ⟨vb, vc, r, hvb, hvc, hr, (Except.ok.inj h).symm⟩

/-- Inversion of a successful jmp. -/
theorem execJmp_inv {s : VM} {a : Nat} {o : SwitchOut}
    (h : execJmp s a = .ok o) :
    ∃ va, getValue s.registers a = .ok va ∧
      o = .fall { s with index := u16 (65535 + va) } := by
  unfold execJmp at h
  obtain ⟨va, hva, h⟩ := bind_ok h
  exact ⟨va, hva, (Except.ok.inj h).symm⟩

/-- Inversion of a successful jt. -/
theorem execJt_inv {s : VM} {a b : Nat} {o : SwitchOut}
    (h : execJt s a b = .ok o) :
    ∃ va, getValue s.registers a = .ok va ∧
      ((va ≠ 0 ∧ ∃ vb, getValue s.registers b = .ok vb ∧
          o = .fall { s with index := u16 (65535 + vb) }) ∨
       (va = 0 ∧ o = .fall { s with index := u16 (s.index + 2) })) := by
  unfold execJt at h
  obtain ⟨va, hva, h⟩ := bind_ok h
  by_cases hz : va = 0
  · rw [if_neg (by simp [hz])] at h
    exact ⟨va, hva, Or.inr ⟨hz, (Except.ok.inj h).symm⟩⟩
  · rw [if_pos hz] at h
    obtain ⟨vb, hvb, h⟩ := bind_ok h
    exact ⟨va, hva, Or.inl ⟨hz, vb, hvb, (Except.ok.inj h).symm⟩⟩

/-- Inversion of a successful jf. -/
theorem execJf_inv {s : VM} {a b : Nat} {o : SwitchOut}
    (h : execJf s a b = .ok o) :
    ∃ va, getValue s.registers a = .ok va ∧
      ((va = 0 ∧ ∃ vb, getValue s.registers b = .ok vb ∧
          o = .fall { s with index := u16 (65535 + vb) }) ∨
       (va ≠ 0 ∧ o = .fall { s with index := u16 (s.index + 2) })) := by
  unfold execJf at h
  obtain ⟨va, hva, h⟩ := bind_ok h
  by_cases hz : va = 0
  · rw [if_pos hz] at h
    obtain ⟨vb, hvb, h⟩ := bind_ok h
    exact ⟨va, hva, Or.inl ⟨hz, vb, hvb, (Except.ok.inj h).symm⟩⟩
  · rw [if_neg hz] at h
    exact ⟨va, hva, Or.inr ⟨hz, (Except.ok.inj h).symm⟩⟩

/-- Inversion of a successful add. -/
theorem execAdd_inv {s : VM} {a b c : Nat} {o : SwitchOut}
    (h : execAdd s a b c = .ok o) :
    ∃ vb vc r, getValue s.registers b = .ok vb ∧
      getValue s.registers c = .ok vc ∧
      setRegister s.registers a (u16 (vb + vc) % 32768) = .ok r ∧
      o = .fall { s with registers := r, index := u16 (s.index + 3) } := by
  unfold execAdd at h
  obtain ⟨vb, hvb, h⟩ := bind_ok h
  obtain ⟨vc, hvc, h⟩ := bind_ok h
  obtain ⟨r, hr, h⟩ := bind_ok h
  exact ⟨vb, vc, r, hvb, hvc, hr, (Except.ok.inj h).symm⟩

/-- Inversion of a successful mult. -/
theorem execMult_inv {s : VM} {a b c : Nat} {o : SwitchOut}
    (h : execMult s a b c = .ok o) :
    ∃ vb vc r, getValue s.registers b = .ok vb ∧
      getValue s.registers c = .ok vc ∧
      setRegister s.registers a (u16 (vb * vc) % 32768) = .ok r ∧
      o = .fall { s with registers := r, index := u16 (s.index + 3) } := by
  unfold execMult at h
  obtain ⟨vb, hvb, h⟩ := bind_ok h
  obtain ⟨vc, hvc, h⟩ := bind_ok h
  obtain ⟨r, hr, h⟩ := bind_ok h
  exact ⟨vb, vc, r, hvb, hvc, hr, (Except.ok.inj h).symm⟩

/-- Inversion of a successful mod. -/
theorem execMod_inv {s : VM} {a b c : Nat} {o : SwitchOut}
    (h : execMod s a b c = .ok o) :
    ∃ vb vc r, getValue s.registers b = .ok vb ∧
      getValue s.registers c = .ok vc ∧ vc ≠ 0 ∧
      setRegister s.registers a (vb % vc) = .ok r ∧
      o = .fall { s with registers := r, index := u16 (s.index + 3) } := by
  unfold execMod at h
  obtain ⟨vb, hvb, h⟩ := bind_ok h
  obtain ⟨vc, hvc, h⟩ := bind_ok h
  by_cases hz : vc = 0
  · rw [if_pos hz] at h
    exact absurd h (by simp)
  · rw [if_neg hz] at h
    obtain ⟨r, hr, h⟩ := bind_ok h
    exact ⟨vb, vc, r, hvb, hvc, hz, hr, (Except.ok.inj h).symm⟩

/-- Inversion of a successful and. -/
theorem execAnd_inv {s : VM} {a b c : Nat} {o : SwitchOut}
    (h : execAnd s a b c = .ok o) :
    ∃ vb vc r, getValue s.registers b = .ok vb ∧
      getValue s.registers c = .ok vc ∧
      setRegister s.registers a ((vb &&& vc) % 32768) = .ok r ∧
      o = .fall { s with registers := r, index := u16 (s.index + 3) } := by
  unfold execAnd at h
  obtain ⟨vb, hvb, h⟩ := bind_ok h
  obtain ⟨vc, hvc, h⟩ := bind_ok h
  obtain ⟨r, hr, h⟩ := bind_ok h
  exact ⟨vb, vc, r, hvb, hvc, hr, (Except.ok.inj h).symm⟩

/-- Inversion of a successful or. -/
theorem execOr_inv {s : VM} {a b c : Nat} {o : SwitchOut}
    (h : execOr s a b c = .ok o) :
    ∃ vb vc r, getValue s.registers b = .ok vb ∧
      getValue s.registers c = .ok vc ∧
      setRegister s.registers a ((vb ||| vc) % 32768) = .ok r ∧
      o = .fall { s with registers := r, index := u16 (s.index + 3) } := by
  unfold execOr at h
  obtain ⟨vb, hvb, h⟩ := bind_ok h
  obtain ⟨vc, hvc, h⟩ := bind_ok h
  obtain ⟨r, hr, h⟩ := bind_ok h
  exact ⟨vb, vc, r, hvb, hvc, hr, (Except.ok.inj h).symm⟩

/-- Inversion of a successful not. -/
theorem execNot_inv {s : VM} {a b : Nat} {o : SwitchOut}
    (h : execNot s a b = .ok o) :
    ∃ vb r, getValue s.registers b = .ok vb ∧
      setRegister s.registers a ((65535 - vb) % 32768) = .ok r ∧
      o = .fall { s with registers := r, index := u16 (s.index + 2) } := by
  unfold execNot at h
  obtain ⟨vb, hvb, h⟩ := bind_ok h
  obtain ⟨r, hr, h⟩ := bind_ok h
  exact ⟨vb, r, hvb, hr, (Except.ok.inj h).symm⟩

/-- Inversion of a successful rmem. -/
theorem execRmem_inv {s : VM} {a b : Nat} {o : SwitchOut}
    (h : execRmem s a b = .ok o) :
    ∃ vb w v r, getValue s.registers b = .ok vb ∧
      readWord s.program vb = .ok w ∧ getValue s.registers w = .ok v ∧
      setRegister s.registers a v = .ok r ∧
      o = .fall { s with registers := r, index := u16 (s.index + 2) } := by
  unfold execRmem at h
  obtain ⟨vb, hvb, h⟩ := bind_ok h
  obtain ⟨w, hw, h⟩ := bind_ok h
  obtain ⟨v, hv, h⟩ := bind_ok h
  obtain ⟨r, hr, h⟩ := bind_ok h
  exact ⟨vb, w, v, r, hvb, hw, hv, hr, (Except.ok.inj h).symm⟩

/-- Inversion of a successful wmem. -/
theorem execWmem_inv {s : VM} {a b : Nat} {o : SwitchOut}
    (h : execWmem s a b = .ok o) :
    ∃ va vb, getValue s.registers a = .ok va ∧
      getValue s.registers b = .ok vb ∧ va < s.program.length ∧
      o = .fall { s with program := s.program.set va vb,
                         index := u16 (s.index + 2) } := by
  unfold execWmem at h
  obtain ⟨va, hva, h⟩ := bind_ok h
  obtain ⟨vb, hvb, h⟩ := bind_ok h
  split at h
  · exact ⟨va, vb, hva, hvb, by assumption, (Except.ok.inj h).symm⟩
  · exact absurd h (by simp)

/-- Inversion of a successful call. -/
theorem execCall_inv {s : VM} {a : Nat} {o : SwitchOut}
    (h : execCall s a = .ok o) :
    ∃ va, getValue s.registers a = .ok va ∧
      o = .fall { s with stack := stack.Push (u16 (s.index + 2)) s.stack,
                         index := u16 (65535 + va) } := by
  unfold execCall at h
  obtain ⟨va, hva, h⟩ := bind_ok h
  exact ⟨va, hva, (Except.ok.inj h).symm⟩

/-- Inversion of a successful ret. -/
theorem execRet_inv {s : VM} {o : SwitchOut} (h : execRet s = .ok o) :
    (s.stack = [] ∧ o = .brk s) ∨
    (∃ v rest rv, s.stack = v :: rest ∧ getValue s.registers v = .ok rv ∧
      o = .fall { s with stack := rest, index := u16 (65535 + rv) }) := by
  unfold execRet at h
  cases hs : s.stack with
  | nil =>
    rw [hs] at h
    simp only [stack.Pop] at h
    exact Or.inl ⟨rfl, (Except.ok.inj h).symm⟩
  | cons v rest =>
    rw [hs] at h
    simp only [stack.Pop] at h
    obtain ⟨rv, hrv, h⟩ := bind_ok h
    exact Or.inr ⟨v, rest, rv, rfl, hrv, (Except.ok.inj h).symm⟩

/-- Inversion of a successful out. -/
theorem execOut_inv {s : VM} {a : Nat} {o : SwitchOut}
    (h : execOut s a = .ok o) :
    ∃ va, getValue s.registers a = .ok va ∧
      o = .fall { s with output := s.output ++ [va],
                         index := u16 (s.index + 1) } := by
  unfold execOut at h
  obtain ⟨va, hva, h⟩ := bind_ok h
  exact ⟨va, hva, (Except.ok.inj h).symm⟩

/-- Inversion of a successful in. -/
theorem execIn_inv {s : VM} {a : Nat} {o : SwitchOut}
    (h : execIn s a = .ok o) :
    ∃ ch rest lines' v r,
      refill s.inputBuf s.inputLines = .ok (ch :: rest, lines') ∧
      getValue s.registers ch = .ok v ∧
      setRegister s.registers a v = .ok r ∧
      o = .fall { s with registers := r, inputBuf := rest,
                         inputLines := lines',
                         index := u16 (s.index + 1) } := by
  unfold execIn at h
  obtain ⟨p, hp, h⟩ := bind_ok h
  obtain ⟨buf, lines'⟩ := p
  cases buf with
  | nil => exact absurd h (by simp)
  | cons ch rest =>
    obtain ⟨v, hv, h⟩ := bind_ok h
    obtain ⟨r, hr, h⟩ := bind_ok h
    exact ⟨ch, rest, lines', v, r, hp, hv, hr, (Except.ok.inj h).symm⟩

/-- Every successful switch body preserves the register invariant, and
every memory cell after it either kept its old content or was written
with a value below 32768. -/
theorem execSwitch_inv {s : VM} {op a b c : Nat} {o : SwitchOut}
    (hr : RegsOk s.registers) (h : execSwitch s op a b c = .ok o) :
    RegsOk (outVM o).registers ∧
    ∀ i w, (outVM o).program.get? i = some w →
      s.program.get? i = some w ∨ w < 32768 := by
  unfold execSwitch at h
  split at h
  · obtain rfl := (Except.ok.inj h).symm
    exact ⟨hr, fun i w hw => Or.inl hw⟩
  · obtain ⟨r, hsr, rfl⟩ := execSet_inv h
    exact ⟨setRegister_RegsOk hsr hr, fun i w hw => Or.inl hw⟩
  · obtain ⟨v, hv, rfl⟩ := execPush_inv h
    exact ⟨hr, fun i w hw => Or.inl hw⟩
  · obtain ⟨v, rest, r, hp, hsr, rfl⟩ := execPop_inv h
    exact ⟨setRegister_RegsOk hsr hr, fun i w hw => Or.inl hw⟩
  · obtain ⟨vb, vc, r, hvb, hvc, hsr, rfl⟩ := execEq_inv h
    exact ⟨setRegister_RegsOk hsr hr, fun i w hw => Or.inl hw⟩
  · obtain ⟨vb, vc, r, hvb, hvc, hsr, rfl⟩ := execGt_inv h
    exact ⟨setRegister_RegsOk hsr hr, fun i w hw => Or.inl hw⟩
  · obtain ⟨va, hva, rfl⟩ := execJmp_inv h
    exact ⟨hr, fun i w hw => Or.inl hw⟩
  · obtain ⟨va, hva, hcase⟩ := execJt_inv h
    rcases hcase with ⟨hnz, vb, hvb, rfl⟩ | ⟨hz, rfl⟩
    · exact ⟨hr, fun i w hw => Or.inl hw⟩
    · exact ⟨hr, fun i w hw => Or.inl hw⟩
  · obtain ⟨va, hva, hcase⟩ := execJf_inv h
    rcases hcase with ⟨hz, vb, hvb, rfl⟩ | ⟨hnz, rfl⟩
    · exact ⟨hr, fun i w hw => Or.inl hw⟩
    · exact ⟨hr, fun i w hw => Or.inl hw⟩
  · obtain ⟨vb, vc, r, hvb, hvc, hsr, rfl⟩ := execAdd_inv h
    exact ⟨setRegister_RegsOk hsr hr, fun i w hw => Or.inl hw⟩
  · obtain ⟨vb, vc, r, hvb, hvc, hsr, rfl⟩ := execMult_inv h
    exact ⟨setRegister_RegsOk hsr hr, fun i w hw => Or.inl hw⟩
  · obtain ⟨vb, vc, r, hvb, hvc, hnz, hsr, rfl⟩ := execMod_inv h
    exact ⟨setRegister_RegsOk hsr hr, fun i w hw => Or.inl hw⟩
  · obtain ⟨vb, vc, r, hvb, hvc, hsr, rfl⟩ := execAnd_inv h
    exact ⟨setRegister_RegsOk hsr hr, fun i w hw => Or.inl hw⟩
  · obtain ⟨vb, vc, r, hvb, hvc, hsr, rfl⟩ := execOr_inv h
    exact ⟨setRegister_RegsOk hsr hr, fun i w hw => Or.inl hw⟩
  · obtain ⟨vb, r, hvb, hsr, rfl⟩ := execNot_inv h
    exact ⟨setRegister_RegsOk hsr hr, fun i w hw => Or.inl hw⟩
  · obtain ⟨vb, w, v, r, hvb, hw, hv, hsr, rfl⟩ := execRmem_inv h
    exact ⟨setRegister_RegsOk hsr hr, fun i w hw => Or.inl hw⟩
  · obtain ⟨va, vb, hva, hvb, hlen, rfl⟩ := execWmem_inv h
    refine ⟨hr, fun i w hw => ?_⟩
    rcases get?_set_cases hw with hw | rfl
    · exact Or.inl hw
    · exact Or.inr (getValue_lt hvb hr)
  · obtain ⟨va, hva, rfl⟩ := execCall_inv h
    exact ⟨hr, fun i w hw => Or.inl hw⟩
  · rcases execRet_inv h with ⟨hs, rfl⟩ | ⟨v, rest, rv, hs, hrv, rfl⟩
    · exact ⟨hr, fun i w hw => Or.inl hw⟩
    · exact ⟨hr, fun i w hw => Or.inl hw⟩
  · obtain ⟨va, hva, rfl⟩ := execOut_inv h
    exact ⟨hr, fun i w hw => Or.inl hw⟩
  · obtain ⟨ch, rest, lines', v, r, hre, hv, hsr, rfl⟩ := execIn_inv h
    exact ⟨setRegister_RegsOk hsr hr, fun i w hw => Or.inl hw⟩
  · obtain rfl := (Except.ok.inj h).symm
    exact ⟨hr, fun i w hw => Or.inl hw⟩
  · exact absurd h (by simp)

/-- C2 (amended): every value the interpreter stores during a step is
reduced below 32768 first — a successful step preserves the invariant
that all register cells lie in [0, 32767] (registers never hold a
register-address value), and any memory cell the step changes receives
a value in [0, 32767].  Memory cells that merely keep their loaded
image content are exempt: the image itself may legitimately contain
register-designator words at or above 32768. -/
theorem step_storage_invariant {s : VM} {o : Out}
    (hr : RegsOk s.registers) (h : step s = .ok o) :
    RegsOk (vmOf o).registers ∧
    ∀ i w, (vmOf o).program.get? i = some w →
      s.program.get? i = some w ∨ w < 32768 := by
  obtain ⟨a, b, c, op, o', ha, hb, hc, hop, ho, rfl⟩ := step_inv h
  have hinv := execSwitch_inv hr ho
  cases o' with
  | brk t => exact hinv
  | fall t => exact hinv

/-- Initial state for the program [9, 32768, 1, 2, 0]: add 1 + 2 into
register 0; the word 32768 at address 1 is the register designator of
the destination operand. -/
def vmAddP : VM := ⟨List.replicate 8 0, [], [9, 32768, 1, 2, 0], 0, [], [], []⟩

/-- The state after one step of vmAddP. -/
def vmAddP' : VM :=
  ⟨[3, 0, 0, 0, 0, 0, 0, 0], [], [9, 32768, 1, 2, 0], 4, [], [], []⟩

/-- C2 is refuted as literally stated: after a successful first step of
the program [9, 32768, 1, 2, 0], memory cell 1 still holds the operand
word 32768, which lies outside [0, 32767] — during execution memory
cells do hold values in the register-address range, because the loaded
image itself contains them; only the values the interpreter stores are
reduced modulo 32768. -/
theorem memory_cell_out_of_literal_range :
    step vmAddP = .ok (.cont vmAddP') ∧
    vmAddP'.program.getD 1 0 = 32768 ∧
    ¬ vmAddP'.program.getD 1 0 ≤ 32767 :=
  ⟨rfl, rfl, by decide⟩

/-- Witness for C2: the invariant theorem applied to the concrete step
of vmAddP. -/
theorem step_storage_invariant_witness :
    RegsOk vmAddP.registers ∧
    (RegsOk (vmOf (.cont vmAddP')).registers ∧
     ∀ i w, (vmOf (.cont vmAddP')).program.get? i = some w →
       vmAddP.program.get? i = some w ∨ w < 32768) :=
  ⟨by unfold RegsOk; decide,
   @step_storage_invariant vmAddP (.cont vmAddP') (by unfold RegsOk; decide) rfl⟩

/-- Operand count per opcode, from the opcode table. -/
def opCount : Nat → Nat
  | 1 => 2
  | 2 => 1
  | 3 => 1
  | 4 => 3
  | 5 => 3
  | 7 => 2
  | 8 => 2
  | 9 => 3
  | 10 => 3
  | 11 => 3
  | 12 => 3
  | 13 => 3
  | 14 => 2
  | 15 => 2
  | 16 => 2
  | 19 => 1
  | 20 => 1
  | _ => 0

/-- Index bookkeeping: when the switch fell through with intermediate
index u16 m, the loop-end increment gives u16 (m + 1). -/
theorem fall_index {s' t u : VM}
    (hs' : s' = { t with index := u16 (t.index + 1) }) (ht : t = u)
    {m : Nat} (hu : u.index = u16 m) : s'.index = u16 (m + 1) := by
  rw [hs']
  show u16 (t.index + 1) = u16 (m + 1)
  rw [ht, hu]
  unfold u16
  omega

/-- C4 (amended): for every opcode that does not explicitly reassign the
instruction pointer and continues execution — set, push, pop, eq, gt,
add, mult, mod, and, or, not, rmem, wmem, out, in, noop, and the
not-taken branches of jt and jf — a successful step leaves the
instruction pointer at its previous value plus the operand count plus
one (reduced modulo 2^16, as the Go uint16 index arithmetic does),
applied uniformly by the index++ at loop end.  halt is excluded: it
breaks out of the loop before the loop-end increment, terminating with
the instruction pointer unchanged. -/
theorem step_ip_advance {s s' : VM} {op : Nat}
    (hop : readWord s.program (u16 s.index) = .ok op)
    (h : step s = .ok (.cont s')) :
    (op ∈ ([1, 2, 3, 4, 5, 9, 10, 11, 12, 13, 14, 15, 16, 19, 20, 21] :
        List Nat) →
      s'.index = u16 (s.index + (opCount op + 1))) ∧
    (op = 7 → ∀ a, rawOperand s 1 = .ok a →
      getValue s.registers a = .ok 0 → s'.index = u16 (s.index + 3)) ∧
    (op = 8 → ∀ a va, rawOperand s 1 = .ok a →
      getValue s.registers a = .ok va → va ≠ 0 →
      s'.index = u16 (s.index + 3)) := by
  obtain ⟨a, b, c, op', t, ha, hb, hc, hop', hsw, hs'⟩ := step_cont_inv h
  obtain rfl : op = op' := Except.ok.inj (hop.symm.trans hop')
  refine ⟨fun hmem => ?_, fun h7 a₀ ha₀ hva₀ => ?_,
    fun h8 a₀ va₀ ha₀ hva₀ hnz => ?_⟩
  · fin_cases hmem
    · simp only [execSwitch] at hsw
      obtain ⟨r, hsr, hfall⟩ := execSet_inv hsw
      exact fall_index hs' (SwitchOut.fall.inj hfall) rfl
    · simp only [execSwitch] at hsw
      obtain ⟨v, hv, hfall⟩ := execPush_inv hsw
      exact fall_index hs' (SwitchOut.fall.inj hfall) rfl
    · simp only [execSwitch] at hsw
      obtain ⟨v, rest, r, hp, hsr, hfall⟩ := execPop_inv hsw
      exact fall_index hs' (SwitchOut.fall.inj hfall) rfl
    · simp only [execSwitch] at hsw
      obtain ⟨vb, vc, r, hvb, hvc, hsr, hfall⟩ := execEq_inv hsw
      exact fall_index hs' (SwitchOut.fall.inj hfall) rfl
    · simp only [execSwitch] at hsw
      obtain ⟨vb, vc, r, hvb, hvc, hsr, hfall⟩ := execGt_inv hsw
      exact fall_index hs' (SwitchOut.fall.inj hfall) rfl
    · simp only [execSwitch] at hsw
      obtain ⟨vb, vc, r, hvb, hvc, hsr, hfall⟩ := execAdd_inv hsw
      exact fall_index hs' (SwitchOut.fall.inj hfall) rfl
    · simp only [execSwitch] at hsw
      obtain ⟨vb, vc, r, hvb, hvc, hsr, hfall⟩ := execMult_inv hsw
      exact fall_index hs' (SwitchOut.fall.inj hfall) rfl
    · simp only [execSwitch] at hsw
      obtain ⟨vb, vc, r, hvb, hvc, hnz, hsr, hfall⟩ := execMod_inv hsw
      exact fall_index hs' (SwitchOut.fall.inj hfall) rfl
    · simp only [execSwitch] at hsw
      obtain ⟨vb, vc, r, hvb, hvc, hsr, hfall⟩ := execAnd_inv hsw
      exact fall_index hs' (SwitchOut.fall.inj hfall) rfl
    · simp only [execSwitch] at hsw
      obtain ⟨vb, vc, r, hvb, hvc, hsr, hfall⟩ := execOr_inv hsw
      exact fall_index hs' (SwitchOut.fall.inj hfall) rfl
    · simp only [execSwitch] at hsw
      obtain ⟨vb, r, hvb, hsr, hfall⟩ := execNot_inv hsw
      exact fall_index hs' (SwitchOut.fall.inj hfall) rfl
    · simp only [execSwitch] at hsw
      obtain ⟨vb, w, v, r, hvb, hw, hv, hsr, hfall⟩ := execRmem_inv hsw
      exact fall_index hs' (SwitchOut.fall.inj hfall) rfl
    · simp only [execSwitch] at hsw
      obtain ⟨va, vb, hva, hvb, hlen, hfall⟩ := execWmem_inv hsw
      exact fall_index hs' (SwitchOut.fall.inj hfall) rfl
    · simp only [execSwitch] at hsw
      obtain ⟨va, hva, hfall⟩ := execOut_inv hsw
      exact fall_index hs' (SwitchOut.fall.inj hfall) rfl
    · simp only [execSwitch] at hsw
      obtain ⟨ch, rest, lines', v, r, hre, hv, hsr, hfall⟩ := execIn_inv hsw
      exact fall_index hs' (SwitchOut.fall.inj hfall) rfl
    · simp only [execSwitch] at hsw
      have ht : s = t := SwitchOut.fall.inj (Except.ok.inj hsw)
      rw [hs', ← ht]
      show u16 (s.index + 1) = u16 (s.index + (opCount 21 + 1))
      rfl
  · subst h7
    simp only [execSwitch] at hsw
    obtain ⟨va, hva, hcase⟩ := execJt_inv hsw
    obtain rfl : va = 0 := by
      have ha' : a₀ = a := Except.ok.inj (ha₀.symm.trans ha)
      subst ha'
      exact Except.ok.inj (hva.symm.trans hva₀)
    rcases hcase with ⟨hnz, _, _, _⟩ | ⟨hz, hfall⟩
    · exact absurd rfl hnz
    · exact fall_index hs' (SwitchOut.fall.inj hfall) rfl
  · subst h8
    simp only [execSwitch] at hsw
    obtain ⟨va, hva, hcase⟩ := execJf_inv hsw
    obtain rfl : va = va₀ := by
      have ha' : a₀ = a := Except.ok.inj (ha₀.symm.trans ha)
      subst ha'
      exact Except.ok.inj (hva.symm.trans hva₀)
    rcases hcase with ⟨hz, _, _, _⟩ | ⟨hz, hfall⟩
    · exact absurd hz hnz
    · exact fall_index hs' (SwitchOut.fall.inj hfall) rfl

/-- Initial state for the one-word program [0]: a bare halt. -/
def vmHaltP : VM := ⟨List.replicate 8 0, [], [0], 0, [], [], []⟩

/-- C4 is refuted as literally stated for halt, which the claim lists
among the opcodes advancing the instruction pointer: on the program [0]
the step halts with the instruction pointer still 0, while the claim
demands previous value plus operand count plus one, which is 1. -/
theorem halt_leaves_ip_unchanged :
    step vmHaltP = .ok (.halt vmHaltP) ∧ vmHaltP.index = 0 ∧
    u16 (vmHaltP.index + (opCount 0 + 1)) = 1 :=
  ⟨rfl, rfl, rfl⟩

/-- Initial state for the program [1, 32768, 7, 0]: set register 0 to 7. -/
def vmSetP : VM := ⟨List.replicate 8 0, [], [1, 32768, 7, 0], 0, [], [], []⟩

/-- The state after one step of vmSetP. -/
def vmSetP' : VM :=
  ⟨[7, 0, 0, 0, 0, 0, 0, 0], [], [1, 32768, 7, 0], 3, [], [], []⟩

/-- Witness for C4 at the concrete set step of vmSetP: the instruction
pointer advances from 0 to 3 = 0 + opCount 1 + 1. -/
theorem step_ip_advance_witness :
    ((1 : Nat) ∈ ([1, 2, 3, 4, 5, 9, 10, 11, 12, 13, 14, 15, 16, 19, 20, 21] :
        List Nat) →
      vmSetP'.index = u16 (vmSetP.index + (opCount 1 + 1))) ∧
    ((1 : Nat) = 7 → ∀ a, rawOperand vmSetP 1 = .ok a →
      getValue vmSetP.registers a = .ok 0 →
      vmSetP'.index = u16 (vmSetP.index + 3)) ∧
    ((1 : Nat) = 8 → ∀ a va, rawOperand vmSetP 1 = .ok a →
      getValue vmSetP.registers a = .ok va → va ≠ 0 →
      vmSetP'.index = u16 (vmSetP.index + 3)) :=
  step_ip_advance rfl rfl

end Synacor
